import Mathlib

/-!
A shallow embedding of src/js/components/Autoplay/Autoplay.ts from the
splide repository, together with theorems about the embedded operations.

Modelling conventions:
* The mutable component state (the flags stopped/hovered/focused, the
  pausable timer, the toggle-button UI, the shuffle buffer) becomes an
  explicit state record threaded through the operations.
* The Math.random stream feeding shuffleArray becomes an explicit choice
  function; Math.floor(Math.random() * (index + 1)) becomes
  choice index % (index + 1), which ranges over [0, index] exactly as the
  source expression does.
* Events emitted on the event bus are returned as lists.
* The do-while loop of onInterval becomes a fuel-indexed recursion; fuel
  exhaustion returns none.  Theorems exhibit an explicit fuel bound under
  which the loop provably returns some result.
* JavaScript numbers reaching interval.set are modelled by JsNum, keeping
  only the distinctions the code observes: NaN, zero, nonzero.
-/

namespace Autoplay

/-- One swap step of the Fisher-Yates loop (Autoplay.ts line 181):
the destructuring assignment exchanging arr[index] and arr[newIndex].
Both indices are in bounds at every call site; out of bounds leaves the
list unchanged. -/
def listSwap {α : Type} (l : List α) (i j : Nat) : List α :=
  if h : i < l.length ∧ j < l.length then
    (l.set i (l.get ⟨j, h.2⟩)).set j (l.get ⟨i, h.1⟩)
  else l

/-- The for-loop of shuffleArray (Autoplay.ts lines 179-182), running the
index from i down to 1.  choice is the Math.random stream: at index the
drawn position is choice index % (index + 1), matching
Math.floor(Math.random() * (index + 1)). -/
def shuffleGo {α : Type} (choice : Nat → Nat) : List α → Nat → List α
  | arr, 0 => arr
  | arr, i + 1 => shuffleGo choice (listSwap arr (i + 1) (choice (i + 1) % (i + 2))) i

/-- shuffleArray (Autoplay.ts lines 177-184): copies its argument
(arr = [...arr]) and runs the swap loop on the copy from arr.length - 1
down to 1.  The embedding is pure, so the copy is the value itself. -/
def shuffleArray {α : Type} (choice : Nat → Nat) (arr : List α) : List α :=
  shuffleGo choice arr (arr.length - 1)

/-- range (Autoplay.ts lines 173-175): the array [0, 1, ..., end - 1]. -/
def rangeList (toEnd : Nat) : List Nat :=
  List.range toEnd

/-- initShuffle (Autoplay.ts lines 186-188): a shuffled copy of the index
range [0, slideLen). -/
def initShuffle (slideLen : Nat) (choice : Nat → Nat) : List Nat :=
  shuffleArray choice (rangeList slideLen)

/-- The state of the shuffle draw loop: the current shuffleBuffer plus a
counter into the supply of Math.random streams, advanced once per
initShuffle() call. -/
structure DrawState where
  buffer : List Nat
  k : Nat
deriving DecidableEq, Repr

/-- The tail of each onInterval loop iteration (Autoplay.ts lines 218-220):
after the shift (and possible regeneration), append a fresh permutation
whenever fewer than slideLen entries remain. -/
def finishStep (slideLen : Nat) (choices : Nat → Nat → Nat) (next : Option Nat)
    (buf : List Nat) (k : Nat) : Option Nat × DrawState :=
  if buf.length < slideLen then (next, ⟨buf ++ initShuffle slideLen (choices k), k + 1⟩)
  else (next, ⟨buf, k⟩)

/-- One iteration of the do-while body of onInterval (Autoplay.ts lines
212-220): shift the front of the buffer; if the shift produced undefined
(empty buffer) or an out-of-range entry, regenerate the whole buffer with a
fresh permutation and shift that instead; then refill if short. -/
def drawStep (slideLen : Nat) (choices : Nat → Nat → Nat) (st : DrawState) :
    Option Nat × DrawState :=
  match st.buffer with
  | [] =>
    finishStep slideLen choices (initShuffle slideLen (choices st.k)).head?
      (initShuffle slideLen (choices st.k)).tail (st.k + 1)
  | x :: rest =>
    if slideLen ≤ x then
      finishStep slideLen choices (initShuffle slideLen (choices st.k)).head?
        (initShuffle slideLen (choices st.k)).tail (st.k + 1)
    else
      finishStep slideLen choices (some x) rest st.k

/-- The do-while loop of onInterval (Autoplay.ts lines 212-221): iterate
drawStep while the drawn value strictly equals the current index
(undefined exits the loop, as undefined === getIndex() is false in the
source).  Fuel-indexed; none means the fuel ran out. -/
def drawLoop (slideLen cur : Nat) (choices : Nat → Nat → Nat) :
    Nat → DrawState → Option (Option Nat × DrawState)
  | 0, _ => none
  | fuel + 1, st =>
    match drawStep slideLen choices st with
    | (next, st1) =>
      if next = some cur then drawLoop slideLen cur choices fuel st1
      else some (next, st1)

/-- The argument handed to Splide.go by onInterval: the sequential-next
token, a concrete index, or undefined. -/
inductive GoTarget where
  | seqNext
  | toIndex (i : Nat)
  | toUndef
deriving DecidableEq, Repr

/-- onInterval (Autoplay.ts lines 199-224): with a null buffer or at most
two slides, navigate with the sequential-next token and leave the buffer
alone; otherwise run the draw loop and navigate to the drawn index.
Returns the go target together with the new shuffleBuffer and counter, or
none when the loop fuel ran out. -/
def onInterval (slideLen cur : Nat) (choices : Nat → Nat → Nat) (fuel : Nat)
    (sb : Option (List Nat)) (k : Nat) : Option (GoTarget × Option (List Nat) × Nat) :=
  match sb with
  | none => some (GoTarget.seqNext, none, k)
  | some buffer =>
    if slideLen ≤ 2 then some (GoTarget.seqNext, some buffer, k)
    else
      match drawLoop slideLen cur choices fuel ⟨buffer, k⟩ with
      | none => none
      | some (next, st) =>
        some ((match next with
               | some i => GoTarget.toIndex i
               | none => GoTarget.toUndef),
              some st.buffer, st.k)

/-- shuffle (Autoplay.ts lines 190-197): turning on with a null buffer
installs a fresh permutation; turning off with a non-null buffer discards
it; anything else leaves the buffer as is. -/
def shuffle (slideLen : Nat) (choice : Nat → Nat) (turnOn : Bool)
    (sb : Option (List Nat)) : Option (List Nat) :=
  let sb1 := if turnOn && sb.isNone then some (initShuffle slideLen choice) else sb
  if !turnOn && !sb1.isNone then none else sb1

/-- Buffers that are concatenations of fresh permutations of the index
range: the shape of everything onInterval ever appends or regenerates. -/
inductive PermCat (n : Nat) : List Nat → Prop where
  | nil : PermCat n []
  | cons (p l : List Nat) : p.Perm (List.range n) → PermCat n l → PermCat n (p ++ l)

/-- The observable controller state: the three flags (Autoplay.ts lines
52-63), whether the RequestInterval timer is paused, and the toggle-button
UI written by update() (the CLASS_ACTIVE class and the aria label key). -/
structure AutoplayState where
  stopped : Bool
  hovered : Bool
  focused : Bool
  timerPaused : Bool
  uiActive : Bool
  uiLabel : String
deriving DecidableEq, Repr

/-- Events emitted on the bus: EVENT_AUTOPLAY_PLAY and
EVENT_AUTOPLAY_PAUSE. -/
inductive AEvent where
  | play
  | pause
deriving DecidableEq, Repr

/-- update (Autoplay.ts lines 145-150): toggles CLASS_ACTIVE to the
negation of stopped and sets the aria label to the localized play or pause
string. -/
def update (s : AutoplayState) : AutoplayState :=
  { s with uiActive := !s.stopped, uiLabel := if s.stopped then "play" else "pause" }

/-- play (Autoplay.ts lines 108-115): when the timer is paused and there
are enough slides, start the timer, clear the three flags, resynchronize
the UI and emit one play event; otherwise do nothing. -/
def play (isEnough : Bool) (s : AutoplayState) : AutoplayState × List AEvent :=
  if s.timerPaused && isEnough then
    (update { s with timerPaused := false, focused := false, hovered := false, stopped := false },
     [AEvent.play])
  else (s, [])

/-- pause (Autoplay.ts lines 122-130): set stopped to the argument and
resynchronize the UI unconditionally; if the timer was running, pause it
and emit one pause event. -/
def pause (stop : Bool) (s : AutoplayState) : AutoplayState × List AEvent :=
  let s1 := update { s with stopped := stop }
  if !s1.timerPaused then ({ s1 with timerPaused := true }, [AEvent.pause])
  else (s1, [])

/-- autoToggle (Autoplay.ts lines 136-140): nothing while stopped;
otherwise pause(false) when hovered or focused, else play(). -/
def autoToggle (isEnough : Bool) (s : AutoplayState) : AutoplayState × List AEvent :=
  if !s.stopped then
    if s.hovered || s.focused then pause false s else play isEnough s
  else (s, [])

/-- The pointer and focus transitions the listeners of listen()
(Autoplay.ts lines 80-93) react to. -/
inductive HFEvent where
  | mouseenter
  | mouseleave
  | focusin
  | focusout
deriving DecidableEq, Repr

/-- One listener invocation (Autoplay.ts lines 82-85 and 89-92): set the
hovered or focused flag from the event type, then run autoToggle. -/
def handleHF (isEnough : Bool) (e : HFEvent) (s : AutoplayState) : AutoplayState × List AEvent :=
  match e with
  | HFEvent.mouseenter => autoToggle isEnough { s with hovered := true }
  | HFEvent.mouseleave => autoToggle isEnough { s with hovered := false }
  | HFEvent.focusin => autoToggle isEnough { s with focused := true }
  | HFEvent.focusout => autoToggle isEnough { s with focused := false }

/-- A whole sequence of hover and focus transitions, accumulating the
emitted events. -/
def runEvents (isEnough : Bool) : List HFEvent → AutoplayState → AutoplayState × List AEvent
  | [], s => (s, [])
  | e :: es, s =>
    let r1 := handleHF isEnough e s
    let r2 := runEvents isEnough es r1.1
    (r2.1, r1.2 ++ r2.2)

/-- The JavaScript number obtained from +getAttribute(slide, attr), kept
at the granularity the code observes: NaN, or an integer (zero being the
falsy case). -/
inductive JsNum where
  | nan
  | num (n : Int)
deriving DecidableEq, Repr

/-- The JavaScript expression v || fallback for a number v: the fallback
exactly when v is falsy, that is NaN or zero. -/
def jsNumOr (v : JsNum) (fallback : Int) : Int :=
  match v with
  | JsNum.nan => fallback
  | JsNum.num n => if n = 0 then fallback else n

/-- onMove (Autoplay.ts lines 168-171): the value passed to interval.set.
slideAttr index is none when Slides.getAt(index) is undefined (Slide is
falsy, so the whole conjunction is falsy and the fallback applies), and
some v when the slide exists and its data attribute coerces to v. -/
def onMove (slideAttr : Nat → Option JsNum) (intervalOpt : Int) (index : Nat) : Int :=
  match slideAttr index with
  | none => intervalOpt
  | some v => jsNumOr v intervalOpt

/-! ## Permutation facts about the Fisher-Yates shuffle -/

/-- Replacing position m by x and moving the previous occupant to the
front permutes a cons of x onto the list. -/
theorem get_cons_set_perm {α : Type} :
    ∀ (xs : List α) (m : Nat) (h : m < xs.length) (x : α),
      (xs.get ⟨m, h⟩ :: xs.set m x).Perm (x :: xs) := by
  intro xs
  induction xs with
  | nil => intro m h x; exact absurd h (Nat.not_lt_zero m)
  | cons y ys ih =>
    intro m h x
    cases m with
    | zero => exact List.Perm.swap x y ys
    | succ m =>
      have hm : m < ys.length := Nat.lt_of_succ_lt_succ h
      exact ((List.Perm.swap y (ys.get ⟨m, hm⟩) (ys.set m x)).trans
        ((ih m hm x).cons y)).trans (List.Perm.swap x y ys)

/-- Exchanging two positions of a list permutes it. -/
theorem set_set_get_perm {α : Type} :
    ∀ (l : List α) (i j : Nat) (hi : i < l.length) (hj : j < l.length),
      ((l.set i (l.get ⟨j, hj⟩)).set j (l.get ⟨i, hi⟩)).Perm l := by
  intro l
  induction l with
  | nil => intro i j hi _; exact absurd hi (Nat.not_lt_zero i)
  | cons y ys ih =>
    intro i j hi hj
    cases i with
    | zero =>
      cases j with
      | zero => exact List.Perm.refl _
      | succ j => exact get_cons_set_perm ys j (Nat.lt_of_succ_lt_succ hj) y
    | succ i =>
      cases j with
      | zero => exact get_cons_set_perm ys i (Nat.lt_of_succ_lt_succ hi) y
      | succ j => exact (ih i j (Nat.lt_of_succ_lt_succ hi) (Nat.lt_of_succ_lt_succ hj)).cons y

theorem listSwap_perm {α : Type} (l : List α) (i j : Nat) : (listSwap l i j).Perm l := by
  unfold listSwap
  split
  case isTrue h => exact set_set_get_perm l i j h.1 h.2
  case isFalse => exact List.Perm.refl l

theorem shuffleGo_perm {α : Type} (choice : Nat → Nat) :
    ∀ (i : Nat) (arr : List α), (shuffleGo choice arr i).Perm arr := by
  intro i
  induction i with
  | zero => intro arr; exact List.Perm.refl arr
  | succ i ih =>
    intro arr
    exact (ih _).trans (listSwap_perm arr (i + 1) (choice (i + 1) % (i + 2)))

theorem initShuffle_perm (n : Nat) (c : Nat → Nat) : (initShuffle n c).Perm (List.range n) :=
  shuffleGo_perm c _ _

theorem initShuffle_length (n : Nat) (c : Nat → Nat) : (initShuffle n c).length = n := by
  rw [(initShuffle_perm n c).length_eq, List.length_range]

theorem initShuffle_mem (n : Nat) (c : Nat → Nat) {x : Nat} (hx : x ∈ initShuffle n c) :
    x < n :=
  List.mem_range.1 ((initShuffle_perm n c).mem_iff.1 hx)

/-- A permutation of the range [0, n) with 3 ≤ n splits into a head below
n and a nonempty tail of distinct in-range entries avoiding the head. -/
theorem perm_range_shape (n : Nat) (p : List Nat) (hp : p.Perm (List.range n)) (h3 : 3 ≤ n) :
    ∃ y t, p = y :: t ∧ y < n ∧ t ≠ [] ∧ (∀ z ∈ t, z < n) ∧ y ∉ t := by
  have hlen : p.length = n := by rw [hp.length_eq, List.length_range]
  have hmem : ∀ z ∈ p, z < n := fun z hz => List.mem_range.1 (hp.mem_iff.1 hz)
  have hnd : p.Nodup := hp.nodup_iff.2 (List.nodup_range n)
  cases p with
  | nil => simp at hlen; omega
  | cons y t =>
    refine ⟨y, t, rfl, hmem y (List.mem_cons_self y t), ?_,
      fun z hz => hmem z (List.mem_cons_of_mem y hz), (List.nodup_cons.1 hnd).1⟩
    intro ht
    rw [ht] at hlen
    simp at hlen
    omega

theorem initShuffle_head (n : Nat) (c : Nat → Nat) (h3 : 3 ≤ n) :
    ∃ y t, initShuffle n c = y :: t ∧ y < n ∧ t ≠ [] ∧ (∀ z ∈ t, z < n) ∧ y ∉ t :=
  perm_range_shape n _ (initShuffle_perm n c) h3

/-! ## Claims about the controller state machine -/

/-- Helper: with stopped set, autoToggle leaves the state alone and emits
nothing. -/
theorem autoToggle_stopped (isEnough : Bool) (s : AutoplayState) (h : s.stopped = true) :
    autoToggle isEnough s = (s, []) := by
  simp [autoToggle, h]

/-- Helper: with stopped set, a single hover or focus listener invocation
keeps stopped, keeps the timer state and emits nothing. -/
theorem handleHF_stopped (isEnough : Bool) (e : HFEvent) (s : AutoplayState)
    (h : s.stopped = true) :
    (handleHF isEnough e s).1.stopped = true ∧
    (handleHF isEnough e s).1.timerPaused = s.timerPaused ∧
    (handleHF isEnough e s).2 = [] := by
  cases e <;> simp [handleHF, autoToggle, h]

/-- Helper: the same, extended over every sequence of hover and focus
transitions. -/
theorem runEvents_stopped (isEnough : Bool) (es : List HFEvent) :
    ∀ s : AutoplayState, s.stopped = true →
      (runEvents isEnough es s).1.stopped = true ∧
      (runEvents isEnough es s).1.timerPaused = s.timerPaused ∧
      (runEvents isEnough es s).2 = [] := by
  induction es with
  | nil => intro s h; exact ⟨h, rfl, rfl⟩
  | cons e es ih =>
    intro s h
    have h1 := handleHF_stopped isEnough e s h
    have h2 := ih (handleHF isEnough e s).1 h1.1
    refine ⟨h2.1, ?_, ?_⟩
    · show (runEvents isEnough es (handleHF isEnough e s).1).1.timerPaused = s.timerPaused
      rw [h2.2.1, h1.2.1]
    · show (handleHF isEnough e s).2 ++ (runEvents isEnough es (handleHF isEnough e s).1).2 = []
      rw [h1.2.2, h2.2.2]
      rfl

/-- C1: manual stop has precedence over hover and focus.  While the
stopped flag is true, autoToggle performs no state change, and for every
sequence of hover and focus transitions the stopped flag stays true, the
timer state is untouched (so playback never starts) and no event is
emitted; only an explicit play call can resume. -/
theorem stopped_precedence (isEnough : Bool) (es : List HFEvent) (s : AutoplayState)
    (h : s.stopped = true) :
    autoToggle isEnough s = (s, []) ∧
    (runEvents isEnough es s).1.stopped = true ∧
    (runEvents isEnough es s).1.timerPaused = s.timerPaused ∧
    (runEvents isEnough es s).2 = [] :=
  ⟨autoToggle_stopped isEnough s h, (runEvents_stopped isEnough es s h).1,
    (runEvents_stopped isEnough es s h).2.1, (runEvents_stopped isEnough es s h).2.2⟩

/-- Witness for C1 at a concrete stopped state and event sequence. -/
theorem stopped_precedence_witness :
    autoToggle true (AutoplayState.mk true false false true false "play") =
      (AutoplayState.mk true false false true false "play", []) ∧
    (runEvents true [HFEvent.mouseenter, HFEvent.focusout]
      (AutoplayState.mk true false false true false "play")).1.stopped = true ∧
    (runEvents true [HFEvent.mouseenter, HFEvent.focusout]
      (AutoplayState.mk true false false true false "play")).1.timerPaused =
      (AutoplayState.mk true false false true false "play").timerPaused ∧
    (runEvents true [HFEvent.mouseenter, HFEvent.focusout]
      (AutoplayState.mk true false false true false "play")).2 = [] :=
  stopped_precedence true [HFEvent.mouseenter, HFEvent.focusout]
    (AutoplayState.mk true false false true false "play") rfl

/-- C3: play is a silent no-op unless the timer is paused and the slide
sufficiency check holds; otherwise it starts the timer, clears the three
flags, resynchronizes the toggle UI and emits exactly one play event. -/
theorem play_spec (isEnough : Bool) (s : AutoplayState) :
    (¬ (s.timerPaused = true ∧ isEnough = true) → play isEnough s = (s, [])) ∧
    (s.timerPaused = true → isEnough = true →
      play isEnough s = (AutoplayState.mk false false false false true "pause", [AEvent.play])) := by
  constructor
  · intro hno
    have hcond : (s.timerPaused && isEnough) = false := by
      cases hp : s.timerPaused <;> cases he : isEnough <;> simp_all
    simp [play, hcond]
  · intro h1 h2
    simp [play, update, h1, h2]

/-- Witness for C3: a successful start and a failing precondition. -/
theorem play_spec_witness :
    play true (AutoplayState.mk true true true true false "play") =
      (AutoplayState.mk false false false false true "pause", [AEvent.play]) ∧
    play false (AutoplayState.mk false false false true true "pause") =
      (AutoplayState.mk false false false true true "pause", []) :=
  ⟨(play_spec true (AutoplayState.mk true true true true false "play")).2 rfl rfl,
   (play_spec false (AutoplayState.mk false false false true true "pause")).1 (by simp)⟩

/-- C4: pause sets the stopped flag to its argument and resynchronizes the
toggle UI unconditionally, leaves hovered and focused alone, always leaves
the timer paused, and emits a pause event exactly when the timer was
running at the call. -/
theorem pause_spec (stop : Bool) (s : AutoplayState) :
    (pause stop s).1.stopped = stop ∧
    (pause stop s).1.uiActive = !stop ∧
    (pause stop s).1.uiLabel = (if stop then "play" else "pause") ∧
    (pause stop s).1.hovered = s.hovered ∧
    (pause stop s).1.focused = s.focused ∧
    (pause stop s).1.timerPaused = true ∧
    (pause stop s).2 = (if s.timerPaused then [] else [AEvent.pause]) := by
  cases h : s.timerPaused <;> simp [pause, update, h]

/-! ## Claims about shuffle toggling and the permutation generator -/

/-- C7: shuffle is an idempotent toggle.  Turning on from a null buffer
installs a fresh permutation of the index range, turning on with a buffer
present changes nothing, turning off always leaves a null buffer, and
running the same toggle twice equals running it once. -/
theorem shuffle_toggle (n : Nat) (c1 c2 : Nat → Nat) (b : Bool) (sb : Option (List Nat)) :
    shuffle n c2 b (shuffle n c1 b sb) = shuffle n c1 b sb ∧
    shuffle n c1 true none = some (initShuffle n c1) ∧
    (initShuffle n c1).Perm (List.range n) ∧
    (∀ l, shuffle n c1 true (some l) = some l) ∧
    shuffle n c1 false sb = none := by
  refine ⟨?_, rfl, initShuffle_perm n c1, fun l => rfl, ?_⟩
  · cases b <;> cases sb <;> simp [shuffle]
  · cases sb <;> rfl

/-- C9: shuffleArray returns a permutation of its input (same length, same
multiset); the source operates on a private copy (arr = [...arr]), which
the pure embedding reflects, so the argument is never mutated.  Hence
initShuffle produces a permutation of the index range [0, n). -/
theorem shuffleArray_permutation {α : Type} (choice : Nat → Nat) (arr : List α) (n : Nat) :
    (shuffleArray choice arr).Perm arr ∧
    (shuffleArray choice arr).length = arr.length ∧
    (initShuffle n choice).Perm (List.range n) :=
  ⟨shuffleGo_perm choice _ arr, (shuffleGo_perm choice _ arr).length_eq,
    shuffleGo_perm choice _ _⟩

/-! ## Claims about onMove and the per-slide interval override -/

/-- C8 counterexample: a present, numeric override of 0 is not honored;
the code sets the global interval (here 5000) instead of the override
value 0, because the override is combined with the fallback by JavaScript
truthiness. -/
theorem onMove_zero_counterexample :
    onMove (fun _ => some (JsNum.num 0)) 5000 0 = 5000 ∧ (5000 : Int) ≠ 0 :=
  ⟨rfl, by decide⟩

/-- C8 amended: onMove sets the interval to the per-slide override exactly
when the slide exists and the attribute coerces to a nonzero number;
an absent slide, an absent or non-numeric attribute, or a zero value all
fall back to the global interval option. -/
theorem onMove_spec (slideAttr : Nat → Option JsNum) (g : Int) (i : Nat) :
    (∀ n : Int, slideAttr i = some (JsNum.num n) → n ≠ 0 → onMove slideAttr g i = n) ∧
    (slideAttr i = some (JsNum.num 0) → onMove slideAttr g i = g) ∧
    (slideAttr i = some JsNum.nan → onMove slideAttr g i = g) ∧
    (slideAttr i = none → onMove slideAttr g i = g) := by
  refine ⟨?_, ?_, ?_, ?_⟩
  · intro n hn hnz
    simp [onMove, hn, jsNumOr, hnz]
  · intro h0
    simp [onMove, h0, jsNumOr]
  · intro hn
    simp [onMove, hn, jsNumOr]
  · intro hn
    simp [onMove, hn]

/-- Witness for C8 at concrete attribute functions. -/
theorem onMove_spec_witness :
    onMove (fun _ => some (JsNum.num 7)) 100 0 = 7 ∧
    onMove (fun _ => none) 100 0 = 100 :=
  ⟨(onMove_spec (fun _ => some (JsNum.num 7)) 100 0).1 7 rfl (by decide),
   (onMove_spec (fun _ => none) 100 0).2.2.2 rfl⟩

/-- C10: a per-slide override that coerces to 0 or to NaN is silently not
honored; onMove passes the global interval option to the timer instead. -/
theorem onMove_falsy_fallback (slideAttr : Nat → Option JsNum) (g : Int) (i : Nat) :
    (slideAttr i = some (JsNum.num 0) → onMove slideAttr g i = g) ∧
    (slideAttr i = some JsNum.nan → onMove slideAttr g i = g) := by
  constructor
  · intro h0
    simp [onMove, h0, jsNumOr]
  · intro hn
    simp [onMove, hn, jsNumOr]

/-! ## The tick loop: single-step facts -/

theorem finishStep_fst (n : Nat) (ch : Nat → Nat → Nat) (nx : Option Nat) (buf : List Nat)
    (k : Nat) : (finishStep n ch nx buf k).1 = nx := by
  unfold finishStep
  split <;> rfl

theorem finishStep_buffer (n : Nat) (ch : Nat → Nat → Nat) (nx : Option Nat) (buf : List Nat)
    (k : Nat) :
    ∃ ys, (finishStep n ch nx buf k).2.buffer = buf ++ ys ∧
      (ys = [] ∨ ys.Perm (List.range n)) := by
  unfold finishStep
  split
  · exact ⟨initShuffle n (ch k), rfl, Or.inr (initShuffle_perm n (ch k))⟩
  · exact ⟨[], (List.append_nil buf).symm, Or.inl rfl⟩

theorem finishStep_len (n : Nat) (ch : Nat → Nat → Nat) (nx : Option Nat) (buf : List Nat)
    (k : Nat) : n ≤ (finishStep n ch nx buf k).2.buffer.length := by
  unfold finishStep
  split
  case isTrue h =>
    simp [initShuffle_length]
  case isFalse h =>
    simpa using Nat.le_of_not_lt h

theorem drawStep_nil (n : Nat) (ch : Nat → Nat → Nat) (k : Nat) :
    drawStep n ch ⟨[], k⟩ =
      finishStep n ch (initShuffle n (ch k)).head? (initShuffle n (ch k)).tail (k + 1) := rfl

theorem drawStep_cons_ge (n : Nat) (ch : Nat → Nat → Nat) (k x : Nat) (rest : List Nat)
    (hx : n ≤ x) :
    drawStep n ch ⟨x :: rest, k⟩ =
      finishStep n ch (initShuffle n (ch k)).head? (initShuffle n (ch k)).tail (k + 1) := by
  simp only [drawStep, if_pos hx]

theorem drawStep_cons_lt (n : Nat) (ch : Nat → Nat → Nat) (k x : Nat) (rest : List Nat)
    (hx : x < n) :
    drawStep n ch ⟨x :: rest, k⟩ = finishStep n ch (some x) rest k := by
  simp only [drawStep, if_neg (Nat.not_le_of_lt hx)]

theorem drawStep_len (n : Nat) (ch : Nat → Nat → Nat) (st : DrawState) :
    n ≤ (drawStep n ch st).2.buffer.length := by
  rcases st with ⟨buf, k⟩
  cases buf with
  | nil =>
    rw [drawStep_nil]
    exact finishStep_len n ch _ _ _
  | cons x rest =>
    by_cases hx : n ≤ x
    · rw [drawStep_cons_ge n ch k x rest hx]
      exact finishStep_len n ch _ _ _
    · rw [drawStep_cons_lt n ch k x rest (Nat.lt_of_not_le hx)]
      exact finishStep_len n ch _ _ _

/-- Every draw the loop body can produce is some index below n, as long
as 3 ≤ n: an in-range shifted entry survives, everything else is replaced
by the head of a fresh nonempty permutation. -/
theorem drawStep_next (n : Nat) (ch : Nat → Nat → Nat) (h3 : 3 ≤ n) (st : DrawState) :
    ∃ i, (drawStep n ch st).1 = some i ∧ i < n := by
  rcases st with ⟨buf, k⟩
  cases buf with
  | nil =>
    obtain ⟨y, t, hyt, hy, -, -, -⟩ := initShuffle_head n (ch k) h3
    refine ⟨y, ?_, hy⟩
    rw [drawStep_nil, finishStep_fst, hyt]
    rfl
  | cons x rest =>
    by_cases hx : n ≤ x
    · obtain ⟨y, t, hyt, hy, -, -, -⟩ := initShuffle_head n (ch k) h3
      refine ⟨y, ?_, hy⟩
      rw [drawStep_cons_ge n ch k x rest hx, finishStep_fst, hyt]
      rfl
    · refine ⟨x, ?_, Nat.lt_of_not_le hx⟩
      rw [drawStep_cons_lt n ch k x rest (Nat.lt_of_not_le hx), finishStep_fst]

/-! ## The tick loop: unfolding, monotonicity, result facts -/

theorem drawLoop_zero (n cur : Nat) (ch : Nat → Nat → Nat) (st : DrawState) :
    drawLoop n cur ch 0 st = none := rfl

theorem drawLoop_succ (n cur : Nat) (ch : Nat → Nat → Nat) (fuel : Nat) (st : DrawState) :
    drawLoop n cur ch (fuel + 1) st =
      (if (drawStep n ch st).1 = some cur then drawLoop n cur ch fuel (drawStep n ch st).2
       else some (drawStep n ch st)) := rfl

theorem drawLoop_exit (n cur : Nat) (ch : Nat → Nat → Nat) (fuel : Nat) (st : DrawState)
    (hne : (drawStep n ch st).1 ≠ some cur) :
    drawLoop n cur ch (fuel + 1) st = some (drawStep n ch st) := by
  rw [drawLoop_succ, if_neg hne]

theorem drawLoop_continue (n cur : Nat) (ch : Nat → Nat → Nat) (fuel : Nat) (st : DrawState)
    (heq : (drawStep n ch st).1 = some cur) :
    drawLoop n cur ch (fuel + 1) st = drawLoop n cur ch fuel (drawStep n ch st).2 := by
  rw [drawLoop_succ, if_pos heq]

theorem drawLoop_mono (n cur : Nat) (ch : Nat → Nat → Nat) :
    ∀ (f1 f2 : Nat) (st : DrawState) (r : Option Nat × DrawState), f1 ≤ f2 →
      drawLoop n cur ch f1 st = some r → drawLoop n cur ch f2 st = some r := by
  intro f1
  induction f1 with
  | zero =>
    intro f2 st r _ h
    rw [drawLoop_zero] at h
    exact absurd h (by simp)
  | succ f1 ih =>
    intro f2 st r hle h
    cases f2 with
    | zero => exact absurd hle (by omega)
    | succ f2 =>
      rw [drawLoop_succ] at h ⊢
      by_cases hnx : (drawStep n ch st).1 = some cur
      · rw [if_pos hnx] at h ⊢
        exact ih f2 _ r (Nat.le_of_succ_le_succ hle) h
      · rw [if_neg hnx] at h ⊢
        exact h

theorem drawLoop_len (n cur : Nat) (ch : Nat → Nat → Nat) :
    ∀ (fuel : Nat) (st : DrawState) (next : Option Nat) (st1 : DrawState),
      drawLoop n cur ch fuel st = some (next, st1) → n ≤ st1.buffer.length := by
  intro fuel
  induction fuel with
  | zero =>
    intro st next st1 h
    rw [drawLoop_zero] at h
    exact absurd h (by simp)
  | succ fuel ih =>
    intro st next st1 h
    rw [drawLoop_succ] at h
    by_cases hnx : (drawStep n ch st).1 = some cur
    · rw [if_pos hnx] at h
      exact ih _ next st1 h
    · rw [if_neg hnx] at h
      have hds : drawStep n ch st = (next, st1) := Option.some.inj h
      have := drawStep_len n ch st
      rw [hds] at this
      exact this

/-- Whatever the loop returns is a drawn index below n and distinct from
the current index. -/
theorem drawLoop_props (n cur : Nat) (ch : Nat → Nat → Nat) (h3 : 3 ≤ n) :
    ∀ (fuel : Nat) (st : DrawState) (next : Option Nat) (st1 : DrawState),
      drawLoop n cur ch fuel st = some (next, st1) →
      ∃ i, next = some i ∧ i < n ∧ i ≠ cur := by
  intro fuel
  induction fuel with
  | zero =>
    intro st next st1 h
    rw [drawLoop_zero] at h
    exact absurd h (by simp)
  | succ fuel ih =>
    intro st next st1 h
    rw [drawLoop_succ] at h
    by_cases hnx : (drawStep n ch st).1 = some cur
    · rw [if_pos hnx] at h
      exact ih _ next st1 h
    · rw [if_neg hnx] at h
      have hds : drawStep n ch st = (next, st1) := Option.some.inj h
      obtain ⟨i, hi, hlt⟩ := drawStep_next n ch h3 st
      rw [hds] at hi
      refine ⟨i, hi, hlt, ?_⟩
      intro hic
      apply hnx
      rw [hds, hi, hic]

/-! ## The tick loop: termination -/

theorem permCat_append (n : Nat) (l q : List Nat) (hl : PermCat n l)
    (hq : q.Perm (List.range n)) : PermCat n (l ++ q) := by
  induction hl with
  | nil => simpa using PermCat.cons q [] hq PermCat.nil
  | cons p l2 hp hl2 ih => simpa [List.append_assoc] using PermCat.cons p (l2 ++ q) hp ih

/-- After an iteration that drew the forbidden current index but left the
buffer headed by an in-range entry different from it, one more iteration
exits. -/
theorem exit_after_cur (n cur : Nat) (ch : Nat → Nat → Nat) (st : DrawState) (t0 : Nat)
    (trest : List Nat) (hfst : (drawStep n ch st).1 = some cur)
    (hbuf : (drawStep n ch st).2.buffer = t0 :: trest)
    (ht0n : t0 < n) (ht0c : t0 ≠ cur) :
    ∃ r, drawLoop n cur ch 2 st = some r := by
  have hcont := drawLoop_continue n cur ch 1 st hfst
  cases hst2 : (drawStep n ch st).2 with
  | mk buf2 k2 =>
    have hb2 : buf2 = t0 :: trest := by
      rw [hst2] at hbuf
      exact hbuf
    refine ⟨drawStep n ch ⟨buf2, k2⟩, ?_⟩
    rw [hcont, hst2]
    refine drawLoop_exit n cur ch 0 _ ?_
    rw [hb2, drawStep_cons_lt n ch k2 t0 trest ht0n, finishStep_fst]
    exact fun hcc => ht0c (Option.some.inj hcc)

/-- An iteration that regenerates the buffer exits within two iterations:
the head of the fresh permutation either differs from the current index,
or the next entry of the permutation does. -/
theorem regen_term2 (n cur : Nat) (ch : Nat → Nat → Nat) (h3 : 3 ≤ n) (st : DrawState)
    (k0 : Nat)
    (hstep : drawStep n ch st =
      finishStep n ch (initShuffle n (ch k0)).head? (initShuffle n (ch k0)).tail (k0 + 1)) :
    ∃ r, drawLoop n cur ch 2 st = some r := by
  obtain ⟨y, t, hyt, hy, htne, htlt, hynt⟩ := initShuffle_head n (ch k0) h3
  have hfst : (drawStep n ch st).1 = some y := by
    rw [hstep, finishStep_fst, hyt]
    rfl
  by_cases hyc : y = cur
  · obtain ⟨t0, t1, ht01⟩ := List.exists_cons_of_ne_nil htne
    obtain ⟨ys, hys, -⟩ :=
      finishStep_buffer n ch (initShuffle n (ch k0)).head? (initShuffle n (ch k0)).tail (k0 + 1)
    have hbuf : (drawStep n ch st).2.buffer = t0 :: (t1 ++ ys) := by
      rw [hstep, hys, hyt, List.tail_cons, ht01]
      rfl
    have ht0n : t0 < n := htlt t0 (by rw [ht01]; exact List.mem_cons_self t0 t1)
    have ht0c : t0 ≠ cur := by
      intro hcc
      apply hynt
      have : y = t0 := by rw [hyc, hcc]
      rw [this, ht01]
      exact List.mem_cons_self t0 t1
    exact exit_after_cur n cur ch st t0 (t1 ++ ys) (by rw [hfst, hyc]) hbuf ht0n ht0c
  · refine ⟨drawStep n ch st, ?_⟩
    exact drawLoop_exit n cur ch 1 st (by rw [hfst]; exact fun hcc => hyc (Option.some.inj hcc))

/-- A buffer that is a concatenation of fresh permutations lets the loop
exit within two iterations. -/
theorem permcat_term2 (n cur : Nat) (ch : Nat → Nat → Nat) (h3 : 3 ≤ n) :
    ∀ (buf : List Nat), PermCat n buf → ∀ (k : Nat),
      ∃ r, drawLoop n cur ch 2 ⟨buf, k⟩ = some r := by
  intro buf hpc
  cases hpc with
  | nil =>
    intro k
    exact regen_term2 n cur ch h3 ⟨[], k⟩ k (drawStep_nil n ch k)
  | cons p l hp hl =>
    intro k
    obtain ⟨y, t, hyt, hy, htne, htlt, hynt⟩ := perm_range_shape n p hp h3
    have hshape : (⟨p ++ l, k⟩ : DrawState) = ⟨y :: (t ++ l), k⟩ := by
      rw [hyt]
      rfl
    have hfst : (drawStep n ch ⟨p ++ l, k⟩).1 = some y := by
      rw [hshape, drawStep_cons_lt n ch k y (t ++ l) hy, finishStep_fst]
    by_cases hyc : y = cur
    · obtain ⟨t0, t1, ht01⟩ := List.exists_cons_of_ne_nil htne
      obtain ⟨ys, hys, -⟩ := finishStep_buffer n ch (some y) (t ++ l) k
      have hbuf : (drawStep n ch ⟨p ++ l, k⟩).2.buffer = t0 :: (t1 ++ l ++ ys) := by
        rw [hshape, drawStep_cons_lt n ch k y (t ++ l) hy, hys, ht01]
        simp [List.append_assoc]
      have ht0n : t0 < n := htlt t0 (by rw [ht01]; exact List.mem_cons_self t0 t1)
      have ht0c : t0 ≠ cur := by
        intro hcc
        apply hynt
        have : y = t0 := by rw [hyc, hcc]
        rw [this, ht01]
        exact List.mem_cons_self t0 t1
      exact exit_after_cur n cur ch ⟨p ++ l, k⟩ t0 (t1 ++ l ++ ys) (by rw [hfst, hyc]) hbuf
        ht0n ht0c
    · refine ⟨drawStep n ch ⟨p ++ l, k⟩, ?_⟩
      exact drawLoop_exit n cur ch 1 _ (by rw [hfst]; exact fun hcc => hyc (Option.some.inj hcc))

/-- Main termination argument: with fuel equal to the length of the
untrusted part of the buffer plus two, the loop returns, for any suffix
made of fresh permutations. -/
theorem drawLoop_term_aux (n cur : Nat) (ch : Nat → Nat → Nat) (h3 : 3 ≤ n) :
    ∀ (b extra : List Nat), PermCat n extra → ∀ (k : Nat),
      ∃ r, drawLoop n cur ch (b.length + 2) ⟨b ++ extra, k⟩ = some r := by
  intro b
  induction b with
  | nil =>
    intro extra hpc k
    simpa using permcat_term2 n cur ch h3 extra hpc k
  | cons x rest ih =>
    intro extra hpc k
    by_cases hx : n ≤ x
    · obtain ⟨r, hr⟩ := regen_term2 n cur ch h3 ⟨x :: (rest ++ extra), k⟩ k
        (drawStep_cons_ge n ch k x (rest ++ extra) hx)
      exact ⟨r, drawLoop_mono n cur ch 2 ((x :: rest).length + 2) _ r (by omega) hr⟩
    · have hxlt : x < n := Nat.lt_of_not_le hx
      by_cases hxc : x = cur
      · have hfst : (drawStep n ch ⟨x :: (rest ++ extra), k⟩).1 = some cur := by
          rw [drawStep_cons_lt n ch k x (rest ++ extra) hxlt, finishStep_fst, hxc]
        obtain ⟨ys, hys, hysp⟩ := finishStep_buffer n ch (some x) (rest ++ extra) k
        have hpc2 : PermCat n (extra ++ ys) := by
          cases hysp with
          | inl h0 =>
            rw [h0, List.append_nil]
            exact hpc
          | inr hqp => exact permCat_append n extra ys hpc hqp
        have hds : (drawStep n ch ⟨x :: (rest ++ extra), k⟩).2 =
            (finishStep n ch (some x) (rest ++ extra) k).2 := by
          rw [drawStep_cons_lt n ch k x (rest ++ extra) hxlt]
        have hstate : (finishStep n ch (some x) (rest ++ extra) k).2 =
            DrawState.mk (rest ++ (extra ++ ys))
              ((finishStep n ch (some x) (rest ++ extra) k).2.k) := by
          cases hfs : (finishStep n ch (some x) (rest ++ extra) k).2 with
          | mk b2 k2 =>
            rw [hfs] at hys
            simp only at hys
            simp only [hys, List.append_assoc]
        obtain ⟨r, hr⟩ := ih (extra ++ ys) hpc2 ((finishStep n ch (some x) (rest ++ extra) k).2.k)
        refine ⟨r, ?_⟩
        have hcont := drawLoop_continue n cur ch (rest.length + 2) ⟨x :: (rest ++ extra), k⟩ hfst
        show drawLoop n cur ch (rest.length + 2 + 1) ⟨x :: (rest ++ extra), k⟩ = some r
        rw [hcont, hds, hstate]
        exact hr
      · refine ⟨drawStep n ch ⟨x :: (rest ++ extra), k⟩, ?_⟩
        show drawLoop n cur ch (rest.length + 2 + 1) ⟨x :: (rest ++ extra), k⟩ = _
        refine drawLoop_exit n cur ch (rest.length + 2) _ ?_
        rw [drawStep_cons_lt n ch k x (rest ++ extra) hxlt, finishStep_fst]
        exact fun hcc => hxc (Option.some.inj hcc)

/-- The assembled totality fact: from any starting buffer, fuel equal to
the buffer length plus two suffices, and the result is an in-range index
different from the current one. -/
theorem drawLoop_total (n cur : Nat) (ch : Nat → Nat → Nat) (buffer : List Nat) (k : Nat)
    (h3 : 3 ≤ n) :
    ∃ i st1, drawLoop n cur ch (buffer.length + 2) ⟨buffer, k⟩ = some (some i, st1) ∧
      i < n ∧ i ≠ cur := by
  have haux := drawLoop_term_aux n cur ch h3 buffer [] PermCat.nil k
  rw [List.append_nil] at haux
  obtain ⟨r, hr⟩ := haux
  rcases r with ⟨next, st1⟩
  obtain ⟨i, hnext, hlt, hne⟩ :=
    drawLoop_props n cur ch h3 (buffer.length + 2) ⟨buffer, k⟩ next st1 hr
  rw [hnext] at hr
  exact ⟨i, st1, hr, hlt, hne⟩

/-! ## Claims about the tick handler -/

/-- C6: for every slide count of at least 3, every current index and every
buffer contents (empty or with out-of-range entries), the draw-retry loop
terminates: with fuel bounded by the buffer length plus two it produces a
drawn value different from the current index (and in range). -/
theorem drawLoop_terminating (n cur : Nat) (ch : Nat → Nat → Nat) (buffer : List Nat)
    (k : Nat) (h3 : 3 ≤ n) :
    ∃ i st1, drawLoop n cur ch (buffer.length + 2) ⟨buffer, k⟩ = some (some i, st1) ∧
      i < n ∧ i ≠ cur :=
  drawLoop_total n cur ch buffer k h3

/-- Witness for C6: a buffer holding an out-of-range entry and copies of
the current index still yields a draw. -/
theorem drawLoop_terminating_witness :
    ∃ i st1, drawLoop 3 1 (fun _ _ => 0) ([5, 9, 1, 1].length + 2) ⟨[5, 9, 1, 1], 0⟩ =
      some (some i, st1) ∧ i < 3 ∧ i ≠ 1 :=
  drawLoop_terminating 3 1 (fun _ _ => 0) [5, 9, 1, 1] 0 (by decide)

/-- C2: a tick with shuffle off navigates with the sequential-next token;
so does a tick with shuffle on but at most 2 slides, leaving the buffer
untouched; with shuffle on and at least 3 slides the index handed to the
navigation sink is in [0, n) and differs from the current index. -/
theorem onInterval_navigation (n cur : Nat) (ch : Nat → Nat → Nat) (buffer : List Nat)
    (k fuel : Nat) :
    onInterval n cur ch fuel none k = some (GoTarget.seqNext, none, k) ∧
    (n ≤ 2 → onInterval n cur ch fuel (some buffer) k =
      some (GoTarget.seqNext, some buffer, k)) ∧
    (3 ≤ n → ∃ i buf1 k1,
      onInterval n cur ch (buffer.length + 2) (some buffer) k =
        some (GoTarget.toIndex i, some buf1, k1) ∧ i < n ∧ i ≠ cur) := by
  refine ⟨rfl, ?_, ?_⟩
  · intro h2
    simp [onInterval, h2]
  · intro h3
    have hn2 : ¬ n ≤ 2 := by omega
    obtain ⟨i, st1, hloop, hlt, hne⟩ := drawLoop_total n cur ch buffer k h3
    refine ⟨i, st1.buffer, st1.k, ?_, hlt, hne⟩
    simp [onInterval, hn2, hloop]

/-- Witness for C2: the degenerate two-slide tick and a three-slide draw. -/
theorem onInterval_navigation_witness :
    onInterval 2 0 (fun _ _ => 0) 5 (some [0, 1]) 0 =
      some (GoTarget.seqNext, some [0, 1], 0) ∧
    (∃ i buf1 k1, onInterval 3 0 (fun _ _ => 0) (([] : List Nat).length + 2) (some []) 0 =
      some (GoTarget.toIndex i, some buf1, k1) ∧ i < 3 ∧ i ≠ 0) :=
  ⟨(onInterval_navigation 2 0 (fun _ _ => 0) [0, 1] 0 5).2.1 (by decide),
   (onInterval_navigation 3 0 (fun _ _ => 0) [] 0 0).2.2 (by decide)⟩

/-- C5: the buffer is replenished whenever a draw would leave it below the
slide count: every loop iteration ends with at least n entries, and a
successful shuffle tick with at least 3 slides leaves a buffer of at least
n entries, in particular never an empty one. -/
theorem buffer_replenished (n : Nat) (ch : Nat → Nat → Nat) :
    (∀ st : DrawState, n ≤ (drawStep n ch st).2.buffer.length) ∧
    (∀ (cur fuel k : Nat) (buffer : List Nat) (g : GoTarget) (sb1 : Option (List Nat))
      (k1 : Nat), 3 ≤ n →
      onInterval n cur ch fuel (some buffer) k = some (g, sb1, k1) →
      ∃ buf1, sb1 = some buf1 ∧ n ≤ buf1.length ∧ buf1 ≠ []) := by
  refine ⟨drawStep_len n ch, ?_⟩
  intro cur fuel k buffer g sb1 k1 h3 h
  have hn2 : ¬ n ≤ 2 := by omega
  simp only [onInterval, if_neg hn2] at h
  cases hdl : drawLoop n cur ch fuel ⟨buffer, k⟩ with
  | none =>
    rw [hdl] at h
    exact absurd h (by simp)
  | some r =>
    rcases r with ⟨next, st1⟩
    rw [hdl] at h
    have hlen := drawLoop_len n cur ch fuel ⟨buffer, k⟩ next st1 hdl
    have hsb : sb1 = some st1.buffer := by
      have := (Option.some.inj h)
      exact (congrArg (fun t => t.2.1) this).symm
    refine ⟨st1.buffer, hsb, hlen, ?_⟩
    intro hnil
    rw [hnil] at hlen
    simp at hlen
    omega

/-- Witness for C5: a tick from the initial empty buffer refills it to at
least the slide count. -/
theorem buffer_replenished_witness :
    ∃ buf1, (some [2, 0, 1, 2, 0] : Option (List Nat)) = some buf1 ∧ 3 ≤ buf1.length ∧
      buf1 ≠ [] :=
  (buffer_replenished 3 (fun _ _ => 0)).2 0 2 0 [] (GoTarget.toIndex 1)
    (some [2, 0, 1, 2, 0]) 2 (by decide) (by rfl)

/-- Witness for C10 at concrete attribute functions. -/
theorem onMove_falsy_fallback_witness :
    onMove (fun _ => some (JsNum.num 0)) 4000 2 = 4000 ∧
    onMove (fun _ => some JsNum.nan) 4000 2 = 4000 :=
  ⟨(onMove_falsy_fallback (fun _ => some (JsNum.num 0)) 4000 2).1 rfl,
   (onMove_falsy_fallback (fun _ => some JsNum.nan) 4000 2).2 rfl⟩

end Autoplay
